import Mathlib

/-!
Verification of the mail-to-records extraction pipeline of `src/app.py`:
shallow embeddings of the message decoder, the record extractor, the IMAP
search-criteria builder, the invoice-date parser and the report builder,
together with theorems checking the specification's claims about them.
-/

namespace App

/-- Whitespace as matched by Python's `str.strip` and the regex class `\s`
on `str` input (Unicode whitespace, notably including U+00A0, the character
that the entity `&nbsp;` decodes to). -/
def isPySpace (c : Char) : Bool :=
  c = ' ' || c = '\t' || c = '\n' || c = '\x0b' || c = '\x0c' || c = '\r' ||
  (0x1c ≤ c.toNat && c.toNat ≤ 0x1f) || c.toNat = 0x85 || c.toNat = 0xa0 ||
  c.toNat = 0x1680 || (0x2000 ≤ c.toNat && c.toNat ≤ 0x200a) ||
  c.toNat = 0x2028 || c.toNat = 0x2029 || c.toNat = 0x202f ||
  c.toNat = 0x205f || c.toNat = 0x3000

/-- Python `str.strip()`: remove leading and trailing whitespace. -/
def pyStrip (cs : List Char) : List Char :=
  ((cs.dropWhile isPySpace).reverse.dropWhile isPySpace).reverse

/-- Entity table for the model of Python's `html.unescape`, in order of
nonincreasing name length (Python resolves the longest matching entity name,
with and without the terminating semicolon). Restricted to the named
entities occurring in the texts considered here. -/
def entityTable : List (List Char × Char) :=
  [("&nbsp;".toList, '\u00A0'), ("&quot;".toList, '\"'),
   ("&nbsp".toList, '\u00A0'), ("&quot".toList, '\"'), ("&amp;".toList, '&'),
   ("&amp".toList, '&'), ("&lt;".toList, '<'), ("&gt;".toList, '>'),
   ("&lt".toList, '<'), ("&gt".toList, '>')]

/-- Longest entity match at the head of `cs`: the decoded character and the
input remaining after the entity. -/
def findEntity (cs : List Char) : Option (Char × List Char) :=
  (entityTable.find? (fun e => e.1.isPrefixOf cs)).map
    (fun e => (e.2, cs.drop e.1.length))

/-- Scanner for `html.unescape`. The fuel argument bounds the number of
steps; each step consumes at least one character, so the input length
suffices as initial fuel. -/
def unescapeAux : Nat → List Char → List Char
  | 0, cs => cs
  | _ + 1, [] => []
  | fuel + 1, c :: rest =>
    if c = '&' then
      match findEntity (c :: rest) with
      | some (e, remainder) => e :: unescapeAux fuel remainder
      | none => c :: unescapeAux fuel rest
    else c :: unescapeAux fuel rest

/-- Model of Python's `html.unescape`, restricted to `entityTable`. -/
def unescapeStr (s : String) : String :=
  String.mk (unescapeAux s.toList.length s.toList)

/-- Scanner for `re.sub(r"<[^>]+>", " ", s)`: each `<`, followed by one or
more characters other than `>` and then `>`, is replaced by one space;
a `<` that begins no such group is kept. -/
def stripTagsAux : Nat → List Char → List Char
  | 0, cs => cs
  | _ + 1, [] => []
  | fuel + 1, c :: rest =>
    if c = '<' then
      let body := rest.takeWhile (fun d => d != '>')
      match rest.dropWhile (fun d => d != '>') with
      | '>' :: rem2 =>
        if body.isEmpty then c :: stripTagsAux fuel rest
        else ' ' :: stripTagsAux fuel rem2
      | _ => c :: stripTagsAux fuel rest
    else c :: stripTagsAux fuel rest

/-- Model of `re.sub(r"<[^>]+>", " ", s)`. -/
def stripTagsStr (s : String) : String :=
  String.mk (stripTagsAux s.toList.length s.toList)

/-- The treatment of a `text/html` payload: strip tag markup, then decode
entities (in this order, as in the source). -/
def decodeHtmlPayload (s : String) : String := unescapeStr (stripTagsStr s)

/-- One body part of a parsed mail message: content type, the value of its
Content-Disposition header, and its decoded textual payload (the model
abstracts charset handling: `get_content` and the `get_payload` fallback
both deliver the part's text). -/
structure MailPart where
  contentType : String
  disposition : String
  payload : String
deriving DecidableEq, Repr

/-- A parsed mail message as consumed by `extract_text_from_message`: either
single-part, or multipart with its parts listed in `walk()` order. -/
inductive MailMessage
  | single (part : MailPart)
  | multipart (parts : List MailPart)
deriving DecidableEq, Repr

def isTextual (contentType : String) : Bool :=
  contentType = "text/plain" || contentType = "text/html"

/-- Whether `needle` occurs as a contiguous substring of `hay`. -/
def containsSub : List Char → List Char → Bool
  | needle, [] => needle.isEmpty
  | needle, c :: rest => needle.isPrefixOf (c :: rest) || containsSub needle rest

/-- Python `"attachment" not in disposition`, negated: substring test. -/
def mentionsAttachment (disposition : String) : Bool :=
  containsSub "attachment".toList disposition.toList

/-- The text contributed by one part: HTML payloads are tag-stripped and
entity-decoded, other payloads pass through. -/
def partText (p : MailPart) : String :=
  if p.contentType = "text/html" then decodeHtmlPayload p.payload else p.payload

/-- Model of `extract_text_from_message`: a multipart message contributes
every `text/plain` or `text/html` part whose disposition does not mention
"attachment"; a single-part message contributes its payload unconditionally;
the collected part texts are joined by newlines. -/
def extract_text_from_message : MailMessage → String
  | .single p => partText p
  | .multipart parts =>
    String.intercalate "\n"
      ((parts.filter
        (fun p => isTextual p.contentType && !mentionsAttachment p.disposition)).map partText)

def userLit : List Char := "Пользователь:".toList

def provelLit : List Char := "провел".toList

/-- Whether the pattern tail `\s+провел` matches at the head of `cs`: at
least one whitespace character, then the literal (which begins with a
non-whitespace character, so the greedy `\s+` necessarily takes the whole
whitespace run). -/
def wsThenProvel (cs : List Char) : Bool :=
  !(cs.takeWhile isPySpace).isEmpty && provelLit.isPrefixOf (cs.dropWhile isPySpace)

/-- The lazy group `(.*?)` of the user pattern: starting from the empty
candidate, extend the capture one non-newline character at a time until the
rest of the pattern matches; `acc` holds the capture so far, reversed. -/
def lazyCapture : List Char → List Char → Option (List Char)
  | _, [] => none
  | acc, c :: rest =>
    if wsThenProvel (c :: rest) then some acc.reverse
    else if c = '\n' then none
    else lazyCapture (c :: acc) rest

/-- Backtracking over the greedy `\s*` after `Пользователь:`: consume `k`
whitespace characters — longest run first — and run the lazy group on the
rest. -/
def wsBacktrack (cs : List Char) : Nat → Option (List Char)
  | 0 => lazyCapture [] cs
  | k + 1 =>
    match lazyCapture [] (cs.drop (k + 1)) with
    | some g => some g
    | none => wsBacktrack cs k

/-- Model of `re.search(r"Пользователь:\s*(.*?)\s+провел", text)`: scan
start positions left to right and return the group captured at the first
position where the whole pattern matches. -/
def searchUser : List Char → Option (List Char)
  | [] => none
  | c :: rest =>
    if userLit.isPrefixOf (c :: rest) then
      match wsBacktrack ((c :: rest).drop userLit.length)
              (((c :: rest).drop userLit.length).takeWhile isPySpace).length with
      | some g => some g
      | none => searchUser rest
    else searchUser rest

/-- Model of `extract_user_from_text`: the captured group, stripped. -/
def extract_user_from_text (text : String) : Option String :=
  (searchUser text.toList).map (fun g => String.mk (pyStrip g))

def invoiceLit : List Char := "Приходная накл.".toList

/-- Characters admitted by the invoice-number class `[^\s(]`. -/
def isNumChar (c : Char) : Bool := !isPySpace c && c != '('

/-- One attempted match of `Приходная накл\.\s+([^\s(]+)\s*\(([^)]+)\)` at
the head of `cs`; on success, the two captured groups and the remainder of
the text after the match. -/
def matchInvoiceAt (cs : List Char) : Option (String × String × List Char) :=
  if invoiceLit.isPrefixOf cs then
    let r1 := cs.drop invoiceLit.length
    if (r1.takeWhile isPySpace).isEmpty then none
    else
      let r2 := r1.dropWhile isPySpace
      let num := r2.takeWhile isNumChar
      if num.isEmpty then none
      else
        match (r2.dropWhile isNumChar).dropWhile isPySpace with
        | '(' :: r4 =>
          let dt := r4.takeWhile (fun c => c != ')')
          if dt.isEmpty then none
          else
            match r4.dropWhile (fun c => c != ')') with
            | ')' :: r5 => some (String.mk num, String.mk dt, r5)
            | _ => none
        | _ => none
  else none

/-- Scanner for `re.findall` on the invoice pattern: scan left to right,
emit each non-overlapping match and resume after its end. The fuel bounds
the number of steps; each step consumes at least one character, so the input
length suffices as initial fuel. -/
def scanInvoicesAux : Nat → List Char → List (String × String)
  | 0, _ => []
  | _ + 1, [] => []
  | fuel + 1, c :: rest =>
    match matchInvoiceAt (c :: rest) with
    | some (num, dt, rem) => (num, dt) :: scanInvoicesAux fuel rem
    | none => scanInvoicesAux fuel rest

/-- All matches of the invoice pattern in `cs`. -/
def scanInvoices (cs : List Char) : List (String × String) :=
  scanInvoicesAux cs.length cs

/-- One extracted record: (invoice number, raw date string, user). -/
abbrev Rec := String × String × String

/-- Python `extract_user_from_text(text) or "Неизвестно"`: the sentinel is
substituted both when the search fails and when the captured user is the
empty string, which is falsy in Python. -/
def userOrUnknown (u : Option String) : String :=
  match u with
  | some s => if s = "" then "Неизвестно" else s
  | none => "Неизвестно"

/-- Model of `extract_invoices_from_text`: every match shares the one user
extracted from the whole text. -/
def extract_invoices_from_text (text : String) : List Rec :=
  let user := userOrUnknown (extract_user_from_text text)
  (scanInvoices text.toList).map (fun p => (p.1, p.2, user))

/-- Model of the per-message loop of `fetch_invoices`: each element of the
input is the outcome of one `imap.fetch` — `none` when the returned status
is not OK or no data came back (the message is logged with a warning and
skipped), otherwise the parsed message. -/
def processMessage (invoices : List Rec) (m : Option MailMessage) : List Rec :=
  match m with
  | none => invoices
  | some msg => invoices ++ extract_invoices_from_text (extract_text_from_message msg)

/-- The accumulated invoices of one run: the loop body applied over all
fetch outcomes, starting from the empty collection. -/
def fetch_invoices_loop (fetched : List (Option MailMessage)) : List Rec :=
  fetched.foldl processMessage []

/-- A `datetime.date` value. -/
structure PyDate where
  year : Nat
  month : Nat
  day : Nat
deriving DecidableEq, Repr

def isLeap (y : Nat) : Bool := y % 4 == 0 && (y % 100 != 0 || y % 400 == 0)

def daysInMonth (y m : Nat) : Nat :=
  if m = 2 then (if isLeap y then 29 else 28)
  else if m = 4 || m = 6 || m = 9 || m = 11 then 30
  else 31

def digitVal (c : Char) : Nat := c.toNat - '0'.toNat

def isDigitCh (c : Char) : Bool := '0' ≤ c && c ≤ '9'

/-- The alternatives of CPython `strptime`'s day pattern
`3[01]|[1-2]\d|0[1-9]|[1-9]| [1-9]`, in regex alternation order, each giving
the parsed day and the remaining input. -/
def dayAlts (cs : List Char) : List (Nat × List Char) :=
  (match cs with
   | '3' :: c :: rest => if c = '0' || c = '1' then [(30 + digitVal c, rest)] else []
   | _ => []) ++
  (match cs with
   | c :: d :: rest =>
     if ('1' ≤ c && c ≤ '2') && isDigitCh d then [(10 * digitVal c + digitVal d, rest)]
     else []
   | _ => []) ++
  (match cs with
   | '0' :: c :: rest => if '1' ≤ c && c ≤ '9' then [(digitVal c, rest)] else []
   | _ => []) ++
  (match cs with
   | c :: rest => if '1' ≤ c && c ≤ '9' then [(digitVal c, rest)] else []
   | _ => []) ++
  (match cs with
   | ' ' :: c :: rest => if '1' ≤ c && c ≤ '9' then [(digitVal c, rest)] else []
   | _ => [])

/-- The alternatives of CPython `strptime`'s month pattern
`1[0-2]|0[1-9]|[1-9]`, in regex alternation order. -/
def monAlts (cs : List Char) : List (Nat × List Char) :=
  (match cs with
   | '1' :: c :: rest => if '0' ≤ c && c ≤ '2' then [(10 + digitVal c, rest)] else []
   | _ => []) ++
  (match cs with
   | '0' :: c :: rest => if '1' ≤ c && c ≤ '9' then [(digitVal c, rest)] else []
   | _ => []) ++
  (match cs with
   | c :: rest => if '1' ≤ c && c ≤ '9' then [(digitVal c, rest)] else []
   | _ => [])

/-- CPython `strptime`'s `%Y`: exactly four digits. -/
def year4 (cs : List Char) : Option (Nat × List Char) :=
  match cs with
  | a :: b :: c :: d :: rest =>
    if isDigitCh a && isDigitCh b && isDigitCh c && isDigitCh d then
      some (1000 * digitVal a + 100 * digitVal b + 10 * digitVal c + digitVal d, rest)
    else none
  | _ => none

/-- CPython `strptime`'s `%y`: exactly two digits. -/
def year2 (cs : List Char) : Option (Nat × List Char) :=
  match cs with
  | a :: b :: rest =>
    if isDigitCh a && isDigitCh b then some (10 * digitVal a + digitVal b, rest) else none
  | _ => none

/-- CPython's two-digit-year pivot: 00-68 map into 2000-2068, 69-99 into
1969-1999. -/
def pivotYear (y : Nat) : Nat := if y ≤ 68 then y + 2000 else y + 1900

/-- Full-string match of the format `%d.%m.%Y`, alternatives tried in regex
backtracking order; a candidate that leaves the match unable to consume the
whole string is rejected and the next alternative is tried (`strptime` also
raises on unconverted trailing data, so only whole-string matches parse). -/
def matchDMY (cs : List Char) : Option PyDate :=
  (dayAlts cs).findSome? fun dr =>
    match dr.2 with
    | '.' :: r2 =>
      (monAlts r2).findSome? fun mr =>
        match mr.2 with
        | '.' :: r4 =>
          match year4 r4 with
          | some (y, []) => some ⟨y, mr.1, dr.1⟩
          | _ => none
        | _ => none
    | _ => none

/-- Full-string match of the format `%d.%m.%y`, as in `matchDMY`. -/
def matchDMy (cs : List Char) : Option PyDate :=
  (dayAlts cs).findSome? fun dr =>
    match dr.2 with
    | '.' :: r2 =>
      (monAlts r2).findSome? fun mr =>
        match mr.2 with
        | '.' :: r4 =>
          match year2 r4 with
          | some (y, []) => some ⟨pivotYear y, mr.1, dr.1⟩
          | _ => none
        | _ => none
    | _ => none

/-- The constraints `datetime.date` enforces beyond the regex shape:
`MINYEAR ≤ year ≤ MAXYEAR` and the day fits the month. -/
def validDate (d : PyDate) : Bool :=
  1 ≤ d.year && d.year ≤ 9999 && 1 ≤ d.month && d.month ≤ 12 &&
  1 ≤ d.day && d.day ≤ daysInMonth d.year d.month

/-- One round of the format loop: match the format, then validate the date;
an invalid date raises `ValueError` exactly like a failed match, so both
yield `none` and fall through to the next format. -/
def tryFormat (fmtMatch : List Char → Option PyDate) (cs : List Char) : Option PyDate :=
  match fmtMatch cs with
  | some d => if validDate d then some d else none
  | none => none

/-- Model of `parse_invoice_date`: strip the raw string, try `%d.%m.%Y`,
then `%d.%m.%y`, returning `None` when both formats fail. -/
def parse_invoice_date (raw : String) : Option PyDate :=
  let s := pyStrip raw.toList
  (tryFormat matchDMY s).orElse (fun _ => tryFormat matchDMy s)

def pad2 (n : Nat) : String := if n < 10 then "0" ++ toString n else toString n

def monthAbbrev (m : Nat) : String :=
  ["Jan", "Feb", "Mar", "Apr", "May", "Jun",
   "Jul", "Aug", "Sep", "Oct", "Nov", "Dec"].getD (m - 1) ""

/-- `date.strftime("%d-%b-%Y")` in the C locale. -/
def strfDate (d : PyDate) : String :=
  pad2 d.day ++ "-" ++ monthAbbrev d.month ++ "-" ++ toString d.year

/-- `date + datetime.timedelta(days=1)` on a valid date. -/
def addOneDay (d : PyDate) : PyDate :=
  if d.day < daysInMonth d.year d.month then ⟨d.year, d.month, d.day + 1⟩
  else if d.month < 12 then ⟨d.year, d.month + 1, 1⟩
  else ⟨d.year + 1, 1, 1⟩

/-- Model of `build_search_criteria`. -/
def build_search_criteria (sender : String) (startDate endDate : PyDate) : List String :=
  let sinceStr := strfDate startDate
  let beforeDate := addOneDay endDate
  let beforeStr := strfDate beforeDate
  ["FROM", "\"" ++ sender ++ "\"", "SINCE", sinceStr, "BEFORE", beforeStr]

/-- The exclusion set of users, verbatim from the source. -/
def EXCLUDED_USERS : List String :=
  ["Авраменко Наталия", "Вифлянцев А.В.", "Воробьева", "Горностаева",
   "Гринчук Ольга", "Гулуева Татьяна", "Дегтярев Алексей", "Дегтярева О.А.",
   "Джиоева Ирина Витальевна", "Заподовникова И.", "Зеленская Галина",
   "Земцова", "Золотова Наталья", "Кирпичева", "Клишина Александра",
   "КонтроллерПеремещения1", "Коронова О.", "Куприянова О.В.",
   "МагазинПриемка3", "Майданик Ирина", "Пименова Вал.Ром.",
   "Скоробогатова Вера", "СтройградСклад1"]

/-- Code-point comparison of character lists: how Python compares `str`
values. -/
def strLtB : List Char → List Char → Bool
  | _, [] => false
  | [], _ :: _ => true
  | a :: as, b :: bs => if a = b then strLtB as bs else decide (a.toNat < b.toNat)

/-- Python `s < t` on strings. -/
def strLt (s t : String) : Prop := strLtB s.data t.data = true

instance : DecidableRel strLt := fun s t => Bool.decEq (strLtB s.data t.data) true

/-- Python tuple comparison on `(invoiceNumber, rawDate, user)`: strict
lexicographic order, strings compared by code points. -/
def recLt (a b : Rec) : Prop :=
  strLt a.1 b.1 ∨
    (a.1 = b.1 ∧ (strLt a.2.1 b.2.1 ∨ (a.2.1 = b.2.1 ∧ strLt a.2.2 b.2.2)))

instance : DecidableRel recLt := fun a b =>
  inferInstanceAs (Decidable (strLt a.1 b.1 ∨
    (a.1 = b.1 ∧ (strLt a.2.1 b.2.1 ∨ (a.2.1 = b.2.1 ∧ strLt a.2.2 b.2.2)))))

/-- Model of Python `sorted(set(l))`: insert each element into a strictly
increasing list, dropping duplicates. -/
def insertSet (x : Rec) : List Rec → List Rec
  | [] => [x]
  | y :: ys =>
    if recLt x y then x :: y :: ys
    else if x = y then y :: ys
    else y :: insertSet x ys

/-- The strictly increasing enumeration of the set of elements of `l`. -/
def uniqueSorted (l : List Rec) : List Rec := l.foldr insertSet []

/-- Encoding of a `datetime.date` as a sort key, order-isomorphic to the
lexicographic order on (year, month, day) for in-range dates. -/
def dateKey (d : PyDate) : Nat := d.year * 10000 + d.month * 100 + d.day

/-- The `_sort_date` column: `parse_invoice_date(raw_date) or
datetime.date.min`. -/
def sortKey (r : Rec) : Nat :=
  match parse_invoice_date r.2.1 with
  | some d => dateKey d
  | none => dateKey ⟨1, 1, 1⟩

def keyLe (a b : Rec) : Prop := sortKey a ≤ sortKey b

instance : DecidableRel keyLe := fun a b => by
  unfold keyLe; infer_instance

instance : IsTotal Rec keyLe := ⟨fun a b => Nat.le_total (sortKey a) (sortKey b)⟩

instance : IsTrans Rec keyLe := ⟨fun _ _ _ => Nat.le_trans⟩

/-- Model of `df.sort_values(by="_sort_date", ascending=True)`: the rows
rearranged into non-decreasing order of the single key `_sort_date`. The
default sort kind of `sort_values` is not stable, so the relative order of
rows with equal keys is unspecified; this executable model determinizes
that choice with an insertion sort, and theorems about the program's
guaranteed ordering rely only on the non-decreasing-key property. -/
def sortByKey (l : List Rec) : List Rec := l.insertionSort keyLe

/-- The deduplicated and filtered rows of `build_report`:
`sorted(set(invoices))` with the rows of excluded users dropped. -/
def filtered_invoices (invoices : List Rec) : List Rec :=
  (uniqueSorted invoices).filter (fun r => !EXCLUDED_USERS.contains r.2.2)

/-- Model of `build_report`: deduplicate via `sorted(set(...))`, drop rows
whose user is excluded, and sort by the resolved date. When the surviving
row list is empty, `pd.DataFrame(rows)` is a frame with no columns and
`sort_values(by="_sort_date")` raises `KeyError`; that failure is `none`. -/
def build_report (invoices : List Rec) : Option (List Rec) :=
  if (filtered_invoices invoices).isEmpty then none
  else some (sortByKey (filtered_invoices invoices))

/-! Order-theoretic facts about the record order and the report pipeline. -/

theorem strLtB_irrefl : ∀ l : List Char, strLtB l l = false := by
  intro l
  induction l with
  | nil => rfl
  | cons a as ih => simp [strLtB, ih]

theorem strLt_irrefl (s : String) : ¬strLt s s := by
  simp [strLt, strLtB_irrefl]

theorem strLtB_trans : ∀ l m n : List Char,
    strLtB l m = true → strLtB m n = true → strLtB l n = true := by
  intro l
  induction l with
  | nil =>
    intro m n h1 h2
    cases n with
    | nil =>
      cases m with
      | nil => exact h1
      | cons b bs => simp [strLtB] at h2
    | cons c cs => rfl
  | cons a as ih =>
    intro m n h1 h2
    cases m with
    | nil => simp [strLtB] at h1
    | cons b bs =>
      cases n with
      | nil => simp [strLtB] at h2
      | cons c cs =>
        simp only [strLtB] at h1 h2 ⊢
        by_cases hab : a = b
        · subst hab
          rw [if_pos rfl] at h1
          by_cases hac : a = c
          · subst hac
            rw [if_pos rfl] at h2 ⊢
            exact ih bs cs h1 h2
          · rw [if_neg hac] at h2 ⊢
            exact h2
        · rw [if_neg hab] at h1
          have hab' : a.toNat < b.toNat := of_decide_eq_true h1
          by_cases hbc : b = c
          · subst hbc
            rw [if_neg hab]
            exact decide_eq_true hab'
          · rw [if_neg hbc] at h2
            have hbc' : b.toNat < c.toNat := of_decide_eq_true h2
            have hac' : a.toNat < c.toNat := Nat.lt_trans hab' hbc'
            have hac : a ≠ c := fun he => absurd (he ▸ hac') (Nat.lt_irrefl _)
            rw [if_neg hac]
            exact decide_eq_true hac'

theorem strLt_trans {a b c : String} (h1 : strLt a b) (h2 : strLt b c) : strLt a c :=
  strLtB_trans _ _ _ h1 h2

theorem strLtB_trichotomy : ∀ l m : List Char,
    strLtB l m = true ∨ l = m ∨ strLtB m l = true := by
  intro l
  induction l with
  | nil =>
    intro m
    cases m with
    | nil => exact Or.inr (Or.inl rfl)
    | cons b bs => exact Or.inl rfl
  | cons a as ih =>
    intro m
    cases m with
    | nil => exact Or.inr (Or.inr rfl)
    | cons b bs =>
      by_cases hab : a = b
      · subst hab
        rcases ih bs with h | h | h
        · exact Or.inl (by simp [strLtB, h])
        · exact Or.inr (Or.inl (by rw [h]))
        · exact Or.inr (Or.inr (by simp [strLtB, h]))
      · rcases Nat.lt_trichotomy a.toNat b.toNat with h | h | h
        · exact Or.inl (by simp [strLtB, hab, h])
        · exact absurd (Char.ext (UInt32.toNat.inj h)) hab
        · refine Or.inr (Or.inr ?_)
          have hba : b ≠ a := fun he => hab he.symm
          simp [strLtB, hba, h]

theorem strLt_trichotomy (a b : String) : strLt a b ∨ a = b ∨ strLt b a := by
  rcases strLtB_trichotomy a.data b.data with h | h | h
  · exact Or.inl h
  · exact Or.inr (Or.inl (String.ext h))
  · exact Or.inr (Or.inr h)

theorem recLt_trans {a b c : Rec} (h1 : recLt a b) (h2 : recLt b c) : recLt a c := by
  obtain ⟨a1, a2, a3⟩ := a
  obtain ⟨b1, b2, b3⟩ := b
  obtain ⟨c1, c2, c3⟩ := c
  simp only [recLt] at *
  rcases h1 with h1 | ⟨e1, h1⟩ <;> rcases h2 with h2 | ⟨e2, h2⟩
  · exact Or.inl (strLt_trans h1 h2)
  · exact Or.inl (e2 ▸ h1)
  · exact Or.inl (e1 ▸ h2)
  · refine Or.inr ⟨e1.trans e2, ?_⟩
    rcases h1 with h1 | ⟨f1, h1⟩ <;> rcases h2 with h2 | ⟨f2, h2⟩
    · exact Or.inl (strLt_trans h1 h2)
    · exact Or.inl (f2 ▸ h1)
    · exact Or.inl (f1 ▸ h2)
    · exact Or.inr ⟨f1.trans f2, strLt_trans h1 h2⟩

theorem recLt_irrefl (a : Rec) : ¬recLt a a := by
  obtain ⟨a1, a2, a3⟩ := a
  simp only [recLt]
  rintro (h | ⟨-, h | ⟨-, h⟩⟩) <;> exact strLt_irrefl _ h

theorem recLt_trichotomy (a b : Rec) : recLt a b ∨ a = b ∨ recLt b a := by
  obtain ⟨a1, a2, a3⟩ := a
  obtain ⟨b1, b2, b3⟩ := b
  simp only [recLt]
  rcases strLt_trichotomy a1 b1 with h1 | h1 | h1
  · exact Or.inl (Or.inl h1)
  · rcases strLt_trichotomy a2 b2 with h2 | h2 | h2
    · exact Or.inl (Or.inr ⟨h1, Or.inl h2⟩)
    · rcases strLt_trichotomy a3 b3 with h3 | h3 | h3
      · exact Or.inl (Or.inr ⟨h1, Or.inr ⟨h2, h3⟩⟩)
      · subst h1; subst h2; subst h3; exact Or.inr (Or.inl rfl)
      · exact Or.inr (Or.inr (Or.inr ⟨h1.symm, Or.inr ⟨h2.symm, h3⟩⟩))
    · exact Or.inr (Or.inr (Or.inr ⟨h1.symm, Or.inl h2⟩))
  · exact Or.inr (Or.inr (Or.inl h1))

theorem recLt_ne {a b : Rec} (h : recLt a b) : a ≠ b :=
  fun he => recLt_irrefl a (he ▸ h)

instance : IsAntisymm Rec recLt :=
  ⟨fun a _ h1 h2 => absurd (recLt_trans h1 h2) (recLt_irrefl a)⟩

theorem uniqueSorted_nil : uniqueSorted [] = [] := rfl

theorem uniqueSorted_cons (a : Rec) (l : List Rec) :
    uniqueSorted (a :: l) = insertSet a (uniqueSorted l) := rfl

theorem mem_insertSet {x y : Rec} : ∀ {l : List Rec}, y ∈ insertSet x l ↔ y = x ∨ y ∈ l := by
  intro l
  induction l with
  | nil => simp [insertSet]
  | cons a l ih =>
    simp only [insertSet]
    split
    · simp [List.mem_cons]
    · split
      · rename_i h
        subst h
        simp only [List.mem_cons]
        tauto
      · simp only [List.mem_cons, ih]
        tauto

theorem mem_uniqueSorted {y : Rec} : ∀ {l : List Rec}, y ∈ uniqueSorted l ↔ y ∈ l := by
  intro l
  induction l with
  | nil => simp [uniqueSorted_nil]
  | cons a l ih => simp [uniqueSorted_cons, mem_insertSet, ih]

theorem pairwise_insertSet {x : Rec} : ∀ {l : List Rec},
    l.Pairwise recLt → (insertSet x l).Pairwise recLt := by
  intro l
  induction l with
  | nil => simp [insertSet]
  | cons a l ih =>
    intro hl
    rcases List.pairwise_cons.1 hl with ⟨ha, hl'⟩
    simp only [insertSet]
    split
    · rename_i hxa
      refine List.pairwise_cons.2 ⟨fun y hy => ?_, hl⟩
      rcases List.mem_cons.1 hy with rfl | hy
      · exact hxa
      · exact recLt_trans hxa (ha y hy)
    · split
      · exact hl
      · rename_i hnlt hne
        refine List.pairwise_cons.2 ⟨fun y hy => ?_, ih hl'⟩
        rcases mem_insertSet.1 hy with rfl | hy
        · rcases recLt_trichotomy a y with h | h | h
          · exact h
          · exact absurd h.symm hne
          · exact absurd h hnlt
        · exact ha y hy

theorem pairwise_uniqueSorted (l : List Rec) : (uniqueSorted l).Pairwise recLt := by
  induction l with
  | nil => simp [uniqueSorted_nil]
  | cons a l ih => exact uniqueSorted_cons a l ▸ pairwise_insertSet ih

/-- Two strictly increasing lists with the same members are equal. -/
theorem strictSorted_eq_of_mem_iff {l₁ l₂ : List Rec} (s₁ : l₁.Pairwise recLt)
    (s₂ : l₂.Pairwise recLt) (h : ∀ a, a ∈ l₁ ↔ a ∈ l₂) : l₁ = l₂ := by
  have n₁ : l₁.Nodup := s₁.imp recLt_ne
  have n₂ : l₂.Nodup := s₂.imp recLt_ne
  exact List.eq_of_perm_of_sorted ((List.perm_ext_iff_of_nodup n₁ n₂).2 h) s₁ s₂

theorem mem_sortByKey {a : Rec} {l : List Rec} : a ∈ sortByKey l ↔ a ∈ l :=
  (List.perm_insertionSort keyLe l).mem_iff

theorem pairwise_filtered_invoices (invoices : List Rec) :
    (filtered_invoices invoices).Pairwise recLt :=
  List.Pairwise.filter _ (pairwise_uniqueSorted invoices)

/-- Deduplicating and filtering the sorted report rows changes nothing:
the rows are already unique and free of excluded users. -/
theorem filtered_invoices_fixed (invoices : List Rec) :
    filtered_invoices (sortByKey (filtered_invoices invoices)) =
      filtered_invoices invoices := by
  have huniq : uniqueSorted (sortByKey (filtered_invoices invoices)) =
      filtered_invoices invoices := by
    refine strictSorted_eq_of_mem_iff (pairwise_uniqueSorted _)
      (pairwise_filtered_invoices invoices) ?_
    intro a
    rw [mem_uniqueSorted, mem_sortByKey]
  show (uniqueSorted (sortByKey (filtered_invoices invoices))).filter _ = _
  rw [huniq]
  exact List.filter_eq_self.2 (fun a ha => (List.mem_filter.1 ha).2)

/-- Accumulating from `acc` is accumulating from nothing, appended to
`acc`: the loop body only ever appends to the accumulator. -/
theorem foldl_processMessage_acc (l : List (Option MailMessage)) (acc : List Rec) :
    l.foldl processMessage acc = acc ++ l.foldl processMessage [] := by
  induction l generalizing acc with
  | nil => simp
  | cons m l ih =>
    simp only [List.foldl_cons]
    rw [ih (processMessage acc m), ih (processMessage [] m)]
    cases m with
    | none => simp [processMessage]
    | some msg => simp [processMessage]

theorem lazyCapture_no_newline : ∀ (cs acc g : List Char),
    (∀ c ∈ acc, c ≠ '\n') → lazyCapture acc cs = some g → ∀ c ∈ g, c ≠ '\n' := by
  intro cs
  induction cs with
  | nil => intro acc g _ h; cases h
  | cons a rest ih =>
    intro acc g hacc h
    unfold lazyCapture at h
    split_ifs at h with h1 h2
    · injection h with h
      subst h
      intro c hc
      exact hacc c (List.mem_reverse.1 hc)
    · exact ih (a :: acc) g
        (by
          intro c hc
          rcases List.mem_cons.1 hc with rfl | hc
          · exact h2
          · exact hacc c hc)
        h

theorem wsBacktrack_no_newline (cs : List Char) : ∀ (k : Nat) (g : List Char),
    wsBacktrack cs k = some g → ∀ c ∈ g, c ≠ '\n' := by
  intro k
  induction k with
  | zero =>
    intro g h
    exact lazyCapture_no_newline cs [] g (by simp) h
  | succ k ih =>
    intro g h
    unfold wsBacktrack at h
    split at h
    · rename_i g' hg'
      injection h with h
      subst h
      exact lazyCapture_no_newline _ [] g' (by simp) hg'
    · exact ih g h

theorem searchUser_no_newline : ∀ (cs g : List Char),
    searchUser cs = some g → ∀ c ∈ g, c ≠ '\n' := by
  intro cs
  induction cs with
  | nil => intro g h; cases h
  | cons a rest ih =>
    intro g h
    unfold searchUser at h
    split_ifs at h with h1
    · split at h
      · rename_i g' hg'
        injection h with h
        subst h
        exact wsBacktrack_no_newline _ _ g' hg'
      · exact ih g h
    · exact ih g h

theorem mem_pyStrip {cs : List Char} {c : Char} (h : c ∈ pyStrip cs) : c ∈ cs := by
  unfold pyStrip at h
  rw [List.mem_reverse] at h
  have h2 := (List.dropWhile_sublist isPySpace).subset h
  rw [List.mem_reverse] at h2
  exact (List.dropWhile_sublist isPySpace).subset h2

/-! Theorems for the claims of the specification. -/

/-- C1, counterexample. The claim says the parenthesized date group of the
invoice pattern is optional, and in particular that the HTML body
`<p>Приходная накл.&nbsp;777</p>` yields one record with invoice number
`777` and no date. In fact the pattern
`Приходная накл\.\s+([^\s(]+)\s*\(([^)]+)\)` requires the parenthesized
group, and that body yields no record at all. -/
theorem html_body_without_date_yields_no_record :
    extract_invoices_from_text
      (extract_text_from_message
        (.single ⟨"text/html", "", "<p>Приходная накл.&nbsp;777</p>"⟩)) = [] := by
  decide

/-- C1, amended. The parenthesized date of the invoice pattern is required,
not optional: the decoded HTML body `<p>Приходная накл.&nbsp;777</p>`
(which decodes to plain text containing the invoice number 777 with a
non-breaking space separator but no parenthesized date) yields no records,
while the same phrase followed by a parenthesized date yields its record. -/
theorem invoice_date_group_required :
    extract_text_from_message
        (.single ⟨"text/html", "", "<p>Приходная накл.&nbsp;777</p>"⟩) =
      " Приходная накл.\u00A0777 " ∧
    extract_invoices_from_text " Приходная накл.\u00A0777 " = [] ∧
    extract_invoices_from_text "Приходная накл. 777 (01.02.2024)" =
      [("777", "01.02.2024", "Неизвестно")] := by
  refine ⟨by decide, by decide, by decide⟩

/-- C2. Date parsing tries `%d.%m.%Y` first and `%d.%m.%y` second,
returning the first success: whenever the four-digit-year format parses,
its result is returned; `01.02.2024` parses (via the first format) to
2024-02-01; `01.02.24` fails the first format (`%Y` requires exactly four
digits) and parses via the second to 2024-02-01; `31.13.2024` fails both
formats, and a record carrying it is retained and sorted first (its sort
key is the minimum date). -/
theorem parse_invoice_date_format_order :
    (∀ (raw : String) (d : PyDate),
      tryFormat matchDMY (pyStrip raw.toList) = some d →
        parse_invoice_date raw = some d) ∧
    tryFormat matchDMY (pyStrip "01.02.24".toList) = none ∧
    parse_invoice_date "01.02.2024" = some ⟨2024, 2, 1⟩ ∧
    parse_invoice_date "01.02.24" = some ⟨2024, 2, 1⟩ ∧
    parse_invoice_date "31.13.2024" = none ∧
    build_report [("9", "31.13.2024", "u"), ("1", "01.02.2024", "u")] =
      some [("9", "31.13.2024", "u"), ("1", "01.02.2024", "u")] := by
  refine ⟨?_, by decide, by decide, by decide, by decide, by decide⟩
  intro raw d h
  simp only [parse_invoice_date]
  rw [h]
  rfl

/-- C2, witness: the general first-format clause applied at a concrete
input. -/
theorem parse_invoice_date_format_order_witness :
    parse_invoice_date "01.02.2024" = some ⟨2024, 2, 1⟩ :=
  parse_invoice_date_format_order.1 "01.02.2024" ⟨2024, 2, 1⟩ (by decide)

/-- C3, counterexample. The claim says every row with an unparseable raw
date appears before every row whose raw date parses. But an unparseable
date resolves to the minimum sort key 0001-01-01, which a parseable date
can also attain: `01.01.0001` parses to 0001-01-01, so the two rows below
tie on the sort key and the claim fails under either resolution of the
tie: placing the parseable-date row `("1", "01.01.0001", "u")` first puts
an unparseable-date row after a parseable one, while placing the
unparseable-date row `("2", "zz", "u")` first puts rows with equal
resolved dates out of the claim's tuple order. The model exhibits the
first resolution. -/
theorem min_date_row_precedes_unparseable_row :
    parse_invoice_date "zz" = none ∧
    parse_invoice_date "01.01.0001" = some ⟨1, 1, 1⟩ ∧
    build_report [("1", "01.01.0001", "u"), ("2", "zz", "u")] =
      some [("1", "01.01.0001", "u"), ("2", "zz", "u")] := by
  refine ⟨by decide, by decide, by decide⟩

/-- C3, amended. Report rows appear in non-decreasing order of their
resolved date, where an unparseable raw date resolves to the minimum date
0001-01-01 (its sort key is the minimum date key); hence every
unparseable-date row appears before every row whose resolved date is
strictly later than the minimum, though it can tie with rows parsing
exactly to the minimum date. No order among rows with equal resolved
dates is asserted: the source sorts with the default non-stable sort of
`DataFrame.sort_values`, which leaves the tie order unspecified. -/
theorem build_report_rows_sorted (invoices rep : List Rec)
    (h : build_report invoices = some rep) :
    rep.Pairwise keyLe ∧
      ∀ a ∈ rep, parse_invoice_date a.2.1 = none → sortKey a = dateKey ⟨1, 1, 1⟩ := by
  constructor
  · unfold build_report at h
    split at h
    · cases h
    · injection h with h
      subst h
      exact List.sorted_insertionSort keyLe _
  · intro a _ hn
    unfold sortKey
    rw [hn]

/-- C3, witness. -/
theorem build_report_rows_sorted_witness :
    ([(("9" : String), ("31.13.2024" : String), ("u" : String))] : List Rec).Pairwise
        keyLe ∧
      ∀ a ∈ ([(("9" : String), ("31.13.2024" : String), ("u" : String))] : List Rec),
        parse_invoice_date a.2.1 = none → sortKey a = dateKey ⟨1, 1, 1⟩ :=
  build_report_rows_sorted [("9", "31.13.2024", "u")] [("9", "31.13.2024", "u")]
    (by decide)

/-- C4. A record whose user is (exactly) in the exclusion set never
appears in a successfully built report. -/
theorem build_report_excludes_users (invoices rep : List Rec) (n d u : String)
    (hu : u ∈ EXCLUDED_USERS) (h : build_report invoices = some rep) :
    (n, d, u) ∉ rep := by
  unfold build_report at h
  split at h
  · cases h
  · injection h with h
    subst h
    intro hmem
    have h1 := mem_sortByKey.1 hmem
    have h2 := (List.mem_filter.1 h1).2
    simp [List.elem_iff, hu] at h2

/-- C4, witness. -/
theorem build_report_excludes_users_witness :
    (("2" : String), ("d" : String), ("Воробьева" : String)) ∉
      ([(("1" : String), ("01.02.2024" : String), ("u" : String))] : List Rec) :=
  build_report_excludes_users [("1", "01.02.2024", "u"), ("2", "d", "Воробьева")]
    [("1", "01.02.2024", "u")] "2" "d" "Воробьева" (by decide) (by decide)

/-- C5. The search criteria consist of sender equality, `SINCE` at the
window start, and `BEFORE` at the day after the window end (an exclusive
upper bound that keeps the whole end day in range), all dates rendered as
`%d-%b-%Y`; in particular the window 2024-01-01 .. 2024-01-31 produces the
upper bound `01-Feb-2024`. -/
theorem build_search_criteria_window (sender : String) (s e : PyDate)
    (h : dateKey s ≤ dateKey e) :
    build_search_criteria sender s e =
      ["FROM", "\"" ++ sender ++ "\"", "SINCE", strfDate s,
        "BEFORE", strfDate (addOneDay e)] ∧
    build_search_criteria "robot_volgorost@volgorost.ru" ⟨2024, 1, 1⟩ ⟨2024, 1, 31⟩ =
      ["FROM", "\"robot_volgorost@volgorost.ru\"", "SINCE", "01-Jan-2024",
        "BEFORE", "01-Feb-2024"] := by
  exact ⟨rfl, by decide⟩

/-- C5, witness. -/
theorem build_search_criteria_window_witness :
    build_search_criteria "a@b" ⟨2024, 1, 1⟩ ⟨2024, 1, 31⟩ =
      ["FROM", "\"" ++ "a@b" ++ "\"", "SINCE", strfDate ⟨2024, 1, 1⟩,
        "BEFORE", strfDate (addOneDay ⟨2024, 1, 31⟩)] :=
  (build_search_criteria_window "a@b" ⟨2024, 1, 1⟩ ⟨2024, 1, 31⟩ (by decide)).1

/-- C6. `build_report` is idempotent: reapplied to the rows of its own
successful output it returns exactly those rows again — deduplication and
exclusion filtering are fixed points on the output. -/
theorem build_report_idempotent (invoices rep : List Rec)
    (h : build_report invoices = some rep) : build_report rep = some rep := by
  unfold build_report at h
  split at h
  · cases h
  · rename_i hne
    injection h with h
    subst h
    unfold build_report
    rw [filtered_invoices_fixed]
    rw [if_neg hne]

/-- C6, witness. -/
theorem build_report_idempotent_witness :
    build_report [("1", "01.02.2024", "u")] = some [("1", "01.02.2024", "u")] :=
  build_report_idempotent [("1", "01.02.2024", "u")] [("1", "01.02.2024", "u")]
    (by decide)

/-- C7. A failed per-message fetch (`none`) is skipped: the run's
accumulated records are exactly those of the messages before the failure
followed by those after it, the same as if the failed message were absent;
in particular a failure never prevents extraction from later messages and
never aborts the loop. -/
theorem fetch_loop_skips_failed_fetch (pre post : List (Option MailMessage)) :
    fetch_invoices_loop (pre ++ none :: post) =
      fetch_invoices_loop pre ++ fetch_invoices_loop post ∧
    fetch_invoices_loop (pre ++ none :: post) = fetch_invoices_loop (pre ++ post) := by
  unfold fetch_invoices_loop
  constructor
  · rw [List.foldl_append]
    simp only [List.foldl_cons]
    show List.foldl processMessage (List.foldl processMessage [] pre) post = _
    rw [foldl_processMessage_acc]
  · rw [List.foldl_append, List.foldl_append]
    simp only [List.foldl_cons]
    rfl

/-- C8. On a non-empty input all of whose records carry excluded users,
`build_report` does not return an (empty) report: the row list is empty,
`pd.DataFrame([])` has no columns, and sorting by `_sort_date` raises —
modelled as `none`. -/
theorem build_report_fails_when_all_excluded (invoices : List Rec)
    (hne : invoices ≠ []) (hall : ∀ r ∈ invoices, r.2.2 ∈ EXCLUDED_USERS) :
    build_report invoices = none := by
  have hempty : (filtered_invoices invoices).isEmpty = true := by
    rw [List.isEmpty_iff]
    show (uniqueSorted invoices).filter _ = []
    rw [List.filter_eq_nil_iff]
    intro a ha
    have hmem := hall a (mem_uniqueSorted.1 ha)
    simp [List.elem_iff, hmem]
  unfold build_report
  rw [if_pos hempty]

/-- C8, witness. -/
theorem build_report_fails_when_all_excluded_witness :
    build_report [("1", "01.01.2024", "Воробьева")] = none :=
  build_report_fails_when_all_excluded [("1", "01.01.2024", "Воробьева")]
    (by decide) (by decide)

/-- C9. The decoder strips tag markup before decoding entities, so
entity-encoded markup such as `&lt;b&gt;` becomes literal angle-bracket
text that stays in the normalized text; decoding in the opposite order
would have removed it as a tag. -/
theorem html_tags_stripped_before_unescape :
    extract_text_from_message (.single ⟨"text/html", "", "x &lt;b&gt; y"⟩) =
      "x <b> y" ∧
    decodeHtmlPayload "x &lt;b&gt; y" = "x <b> y" ∧
    stripTagsStr (unescapeStr "x &lt;b&gt; y") = "x   y" := by
  refine ⟨by decide, by decide, by decide⟩

/-- C10, counterexample. The claim says the user pattern never matches
across line boundaries and that without a same-line match every record
carries the sentinel. But `\s+` before `провел` matches a newline: in the
text below the pattern matches with the name and `провел` on different
lines, and the extracted record carries `Иванов`, not `Неизвестно`. -/
theorem user_pattern_matches_across_lines :
    extract_user_from_text
        "Пользователь: Иванов\nпровел Приходная накл. 5 (01.02.2024)" =
      some "Иванов" ∧
    extract_invoices_from_text
        "Пользователь: Иванов\nпровел Приходная накл. 5 (01.02.2024)" =
      [("5", "01.02.2024", "Иванов")] := by
  refine ⟨by decide, by decide⟩

/-- C10, amended. The captured user name itself never contains a newline
(the lazy `.` group does not cross lines), but the whitespace runs after
the colon and before `провел` may, so the pattern can match across line
boundaries; the whitespace after the colon may be absent; and whenever the
pattern does not match at all, every record extracted from the text
carries the sentinel `Неизвестно`. -/
theorem user_capture_no_newline_and_sentinel :
    (∀ (t u : String), extract_user_from_text t = some u → '\n' ∉ u.toList) ∧
    extract_user_from_text "Пользователь:Иванов провел" = some "Иванов" ∧
    (∀ t : String, extract_user_from_text t = none →
      ∀ r ∈ extract_invoices_from_text t, r.2.2 = "Неизвестно") := by
  refine ⟨?_, by decide, ?_⟩
  · intro t u h hmem
    simp only [extract_user_from_text, Option.map_eq_some'] at h
    obtain ⟨g, hg, rfl⟩ := h
    have : '\n' ∈ pyStrip g := hmem
    exact searchUser_no_newline t.toList g hg '\n' (mem_pyStrip this) rfl
  · intro t ht r hr
    simp only [extract_invoices_from_text, ht] at hr
    obtain ⟨p, _, rfl⟩ := List.mem_map.1 hr
    rfl

/-- C10, witness: the no-newline clause applied at a concrete input. -/
theorem user_capture_no_newline_and_sentinel_witness :
    '\n' ∉ ("Иванов" : String).toList :=
  user_capture_no_newline_and_sentinel.1 "Пользователь:Иванов провел" "Иванов"
    (by decide)

end App
